import Mathlib

/-!
Verification of the funding-tracker ingestion engine.

Shallow embedding of the Python sources under `src/funding_tracker/`:
pure fragments become Lean functions, stateful fragments become explicit
state-passing functions, timestamps are integers (seconds or milliseconds,
as noted per definition), and real-valued funding rates are modelled by `ℚ`.
-/

namespace FundingTracker

/-! ## Instance sharding (runtime.py) -/

/-- Python list slicing `l[start::step]` for non-negative `start` and positive
`step`: the elements at indices `start, start + step, start + 2·step, …`. -/
def pySliceStep {α : Type} : List α → Nat → Nat → List α
  | [], _, _ => []
  | _ :: xs, n + 1, step => pySliceStep xs n step
  | x :: xs, 0, step => x :: pySliceStep xs (step - 1) step

/-- Python `sorted(...)` on a list of strings, modelled by insertion sort
with the total order on `String`. -/
def pySorted (l : List String) : List String := l.insertionSort (· ≤ ·)

/-- Function `_filter_exchanges_by_instance` from `runtime.py` (lines 118-126):
returns the input unchanged when `total_instances <= 1`, otherwise the slice
`sorted(exchanges)[instance_id::total_instances]`. -/
def filter_exchanges_by_instance (exchanges : List String)
    (instance_id total_instances : Nat) : List String :=
  if total_instances ≤ 1 then exchanges
  else pySliceStep (pySorted exchanges) instance_id total_instances

/-- The instance-sharding fragment of `build_runtime_config` from `runtime.py`
(lines 47-63): validation of `(instance_id, total_instances)` followed by the
round-robin filter. The `exchanges` argument is the list the source holds at
line 59, which is always sorted there. -/
def build_runtime_config_exchanges (exchanges : List String)
    (instance_id total_instances : Int) : Except String (List String) :=
  if total_instances ≤ 0 then Except.error "TOTAL_INSTANCES must be greater than 0"
  else if instance_id < 0 then Except.error "INSTANCE_ID must be >= 0"
  else if instance_id ≥ total_instances then
    Except.error "INSTANCE_ID must be less than TOTAL_INSTANCES"
  else if total_instances > 1 then
    Except.ok (filter_exchanges_by_instance exchanges instance_id.toNat total_instances.toNat)
  else Except.ok exchanges

/-! ## Materialized-view refresher (materialized_view_refresher.py) -/

/-- The two mutable fields of `MaterializedViewRefresher`: `_last_signal_time`
(a wall-clock time or `None`) and `_pending_refresh`. Wall-clock times are
modelled by `ℚ` seconds. -/
structure RefresherState where
  last_signal_time : Option ℚ
  pending_refresh : Bool
deriving DecidableEq

/-- Method `MaterializedViewRefresher.signal_contracts_changed`: records the signal
time and sets the pending flag. -/
def signal_contracts_changed (_s : RefresherState) (now : ℚ) : RefresherState :=
  { last_signal_time := some now, pending_refresh := true }

/-- Method `MaterializedViewRefresher.check_and_refresh_if_needed` (lines 24-45).
`now` is the current wall-clock time, `debounce_seconds` the configured
debounce (default 10), and `refresh_succeeds` tells whether the
`REFRESH MATERIALIZED VIEW` transaction raises. Returns the new state and
whether a refresh was executed. -/
def check_and_refresh_if_needed (s : RefresherState) (now debounce_seconds : ℚ)
    (refresh_succeeds : Bool) : RefresherState × Bool :=
  if s.pending_refresh = false ∨ s.last_signal_time = none then (s, false)
  else
    match s.last_signal_time with
    | none => (s, false)
    | some t =>
      if now - t ≥ debounce_seconds then
        if refresh_succeeds then
          ({ last_signal_time := none, pending_refresh := false }, true)
        else (s, true)
      else (s, false)

/-! ## Data model (shared/models) and contract registry (coordinators/contract_registry.py) -/

/-- A row of the `contract` table. Key is the triple
`(asset_name, section_name, quote_name)`; `funding_interval` is in hours. -/
structure ContractRow where
  asset_name : String
  quote_name : String
  section_name : String
  funding_interval : Int
  deprecated : Bool
  synced : Bool
deriving DecidableEq

/-- A `ContractInfo` record as returned by an adapter's `get_contracts()`
(exchanges/dto.py). -/
structure ContractInfo where
  asset_name : String
  quote : String
  funding_interval : Int
  section_name : String
deriving DecidableEq

/-- The dimension tables touched by `register_contracts`: `section`, `asset`
and `quote` are name-keyed, `contract` is keyed by its triple. -/
structure DBState where
  sections : List String
  assets : List String
  quotes : List String
  contracts : List ContractRow
deriving DecidableEq

/-- One row of an `INSERT ... ON CONFLICT DO NOTHING` on a name-keyed table. -/
def insert_ignore_name (t : List String) (n : String) : List String :=
  if n ∈ t then t else t ++ [n]

/-- Bulk insert-ignore on a name-keyed table (`Repository.bulk_insert_ignore`
with `on_conflict="ignore"`). -/
def insert_ignore_names (t : List String) (ns : List String) : List String :=
  ns.foldl insert_ignore_name t

/-- The conflict target of `ContractRepository.upsert_many`:
`(asset_name, section_name, quote_name)`. -/
def contractKey (r : ContractRow) : String × String × String :=
  (r.asset_name, r.section_name, r.quote_name)

/-- One row of the `INSERT ... ON CONFLICT (asset_name, section_name, quote_name)
DO UPDATE` issued by `ContractRepository.upsert_many`: on conflict only
`funding_interval` and `deprecated` are taken from the incoming row. -/
def upsert_one (t : List ContractRow) (r : ContractRow) : List ContractRow :=
  if contractKey r ∈ t.map contractKey then
    t.map (fun x => if contractKey x = contractKey r then
      { x with funding_interval := r.funding_interval, deprecated := r.deprecated }
    else x)
  else t ++ [r]

/-- Method `ContractRepository.upsert_many` (shared/repositories/contract.py lines 27-36). -/
def upsert_many (t : List ContractRow) (rs : List ContractRow) : List ContractRow :=
  rs.foldl upsert_one t

/-- The loop body of `register_contracts` lines 53-56: an existing contract of
the section whose `(asset_name, quote_name)` key is not among the fetched keys
gets `deprecated = True`; other rows are untouched. -/
def mark_deprecated_row (section_name : String)
    (api_contract_keys : List (String × String)) (row : ContractRow) : ContractRow :=
  if row.section_name = section_name ∧
      (row.asset_name, row.quote_name) ∉ api_contract_keys then
    { row with deprecated := true }
  else row

/-- The `Contract(...)` constructed for each fetched record at
`register_contracts` lines 61-70: `deprecated = False`, `synced` left at its
column default (false). -/
def fresh_contract (section_name : String) (c : ContractInfo) : ContractRow :=
  { asset_name := c.asset_name, quote_name := c.quote, section_name := section_name,
    funding_interval := c.funding_interval, deprecated := false, synced := false }

/-- Coordinator `register_contracts` (coordinators/contract_registry.py lines 19-83) as a
transition on the dimension-table state. Returns the new state and whether the
MV refresher was signalled. An empty adapter response is logged and returns
without touching the database; otherwise, in one transaction: insert-ignore the
section, the quotes and the assets, mark every existing contract of the section
whose `(asset, quote)` key is absent from the fetched list as deprecated, and
upsert all fetched contracts with `deprecated = false`. -/
def register_contracts (api_contracts : List ContractInfo) (section_name : String)
    (db : DBState) : DBState × Bool :=
  if api_contracts.isEmpty then (db, false)
  else
    let api_contract_keys := api_contracts.map (fun c => (c.asset_name, c.quote))
    ({ sections := insert_ignore_name db.sections section_name,
       quotes := insert_ignore_names db.quotes (api_contracts.map (·.quote)),
       assets := insert_ignore_names db.assets (api_contracts.map (·.asset_name)),
       contracts := upsert_many
         (db.contracts.map (mark_deprecated_row section_name api_contract_keys))
         (api_contracts.map (fresh_contract section_name)) }, true)

/-- Sample contract row used in concrete instantiations. -/
def sampleContract : ContractRow :=
  { asset_name := "BTC", quote_name := "USD", section_name := "hyperliquid",
    funding_interval := 8, deprecated := false, synced := false }

/-! ## Orchestrator (orchestration/exchange_orchestrator.py) -/

/-- How a contract is processed in step (3) of `ExchangeOrchestrator.update`:
`sync_contract` when `synced = false`, `update_contract` when `synced = true`. -/
inductive ProcMode
  | syncMode
  | updateMode
deriving DecidableEq

/-- The observable outcome of one `ExchangeOrchestrator.update()` invocation:
whether an exception propagated to the caller, whether step (2) (reading the
section's contracts) was reached, and which contracts were processed and how. -/
structure OrchUpdateOutcome where
  propagated : Bool
  contracts_read : Bool
  processed : List (ContractRow × ProcMode)
deriving DecidableEq

/-- Method `ExchangeOrchestrator.update` (lines 38-132) at the level of its control
flow: `register_raises` tells whether `register_contracts` raised, and
`contracts` is what `get_by_section` would return. The source catches and logs
a `register_contracts` exception and then returns at line 55. -/
def exchange_orchestrator_update (register_raises : Bool)
    (contracts : List ContractRow) : OrchUpdateOutcome :=
  if register_raises then
    { propagated := false, contracts_read := false, processed := [] }
  else if contracts.isEmpty then
    { propagated := false, contracts_read := true, processed := [] }
  else
    { propagated := false, contracts_read := true,
      processed := contracts.map (fun c =>
        (c, if c.synced then ProcMode.updateMode else ProcMode.syncMode)) }

/-! ## History fetcher (coordinators/history_fetcher.py) -/

/-- A `FundingPoint` DTO (exchanges/dto.py): a rate and a timestamp. The
timestamp unit depends on the context (seconds for the coordinators,
milliseconds for the Paradex aggregation) and is noted at each use. -/
structure FundingPoint where
  rate : ℚ
  timestamp : Int
deriving DecidableEq

/-- A row of the `funding_rate_record` hypertable
(shared/models/historical_funding_point.py); primary key
`(contract_id, timestamp)`. Timestamps in seconds. -/
structure HistoricalFundingPoint where
  contract_id : String
  timestamp : Int
  funding_rate : ℚ
deriving DecidableEq

/-- Suspension-point events of a coordinator execution, used to state where
unit-of-work sessions are open relative to upstream HTTP calls. `txOpen` is
the entry of `async with uow_factory() as uow`, `txClose` its exit
(commit/rollback + close), `dbOp` a query or insert inside the session, and
`httpCall` an adapter `fetch_history_before`/`fetch_history_after` call. -/
inductive DbEvent
  | txOpen
  | dbOp
  | txClose
  | httpCall
deriving DecidableEq

/-- Checks that no `httpCall` occurs while a transaction is open: `depth` is
the number of currently open unit-of-work sessions. -/
def no_http_in_open_tx : Nat → List DbEvent → Bool
  | _, [] => true
  | depth, DbEvent.txOpen :: rest => no_http_in_open_tx (depth + 1) rest
  | depth, DbEvent.txClose :: rest => no_http_in_open_tx (depth - 1) rest
  | depth, DbEvent.dbOp :: rest => no_http_in_open_tx depth rest
  | depth, DbEvent.httpCall :: rest => depth == 0 && no_http_in_open_tx depth rest

/-- The suspension-point trace of the `while True` loop of `sync_contract`
(lines 44-99), driven by the successive results of `fetch_history_before`.
Each iteration opens a short session to read the oldest stored timestamp and
closes it, performs the HTTP fetch, then opens a fresh session either to mark
the contract synced (empty batch, loop exits) or to insert-ignore the batch. -/
def sync_contract_trace_loop : List (List FundingPoint) → List DbEvent
  | [] => []
  | b :: bs =>
    [DbEvent.txOpen, DbEvent.dbOp, DbEvent.txClose, DbEvent.httpCall] ++
      (if b.isEmpty then [DbEvent.txOpen, DbEvent.dbOp, DbEvent.txClose]
       else [DbEvent.txOpen, DbEvent.dbOp, DbEvent.txClose] ++
         sync_contract_trace_loop bs)

/-- The suspension-point trace of `sync_contract` (lines 20-100): an
already-synced contract returns immediately; otherwise the loop runs on the
successive `fetch_history_before` batches. -/
def sync_contract_trace (synced : Bool) (batches : List (List FundingPoint)) :
    List DbEvent :=
  if synced then [] else sync_contract_trace_loop batches

/-- The observable outcome of one `update_contract` call. `fetch_after_arg` is
the cutoff passed to `fetch_history_after` (none when it is not called),
`http_calls` the number of adapter calls, `inserted` the rows handed to
`bulk_insert_ignore`, `warned` whether the no-historical-data warning was
logged, and `trace` the suspension-point trace. -/
structure UpdateContractResult where
  returned : Nat
  http_calls : Nat
  fetch_after_arg : Option Int
  inserted : List HistoricalFundingPoint
  warned : Bool
  trace : List DbEvent
deriving DecidableEq

/-- Coordinator `update_contract` (coordinators/history_fetcher.py lines 103-162).
`newest` is what `get_newest_for_contract` returns (the newest stored
timestamp, in seconds), `now` is `datetime.now()` in seconds, and
`funding_interval` is the contract's interval in hours
(`timedelta(hours=...)` = `funding_interval * 3600` seconds). The whole body
runs inside a single `async with uow_factory() as uow` block, so the session
opened for the newest-timestamp read is still open during the
`fetch_history_after` HTTP call. -/
def update_contract (funding_interval : Int) (contract_id : String)
    (newest : Option Int) (now : Int)
    (fetch_history_after : Int → List FundingPoint) : UpdateContractResult :=
  match newest with
  | none =>
    { returned := 0, http_calls := 0, fetch_after_arg := none, inserted := [],
      warned := true, trace := [DbEvent.txOpen, DbEvent.dbOp, DbEvent.txClose] }
  | some newest_ts =>
    let after_timestamp := newest_ts + 1
    let time_since_last := now - after_timestamp
    let required_interval := funding_interval * 3600
    if time_since_last < required_interval then
      { returned := 0, http_calls := 0, fetch_after_arg := none, inserted := [],
        warned := false, trace := [DbEvent.txOpen, DbEvent.dbOp, DbEvent.txClose] }
    else
      let points := fetch_history_after after_timestamp
      if points.isEmpty then
        { returned := 0, http_calls := 1, fetch_after_arg := some after_timestamp,
          inserted := [], warned := false,
          trace := [DbEvent.txOpen, DbEvent.dbOp, DbEvent.httpCall, DbEvent.txClose] }
      else
        { returned := points.length, http_calls := 1,
          fetch_after_arg := some after_timestamp,
          inserted := points.map (fun p =>
            { contract_id := contract_id, timestamp := p.timestamp,
              funding_rate := p.rate }),
          warned := false,
          trace := [DbEvent.txOpen, DbEvent.dbOp, DbEvent.httpCall, DbEvent.dbOp,
            DbEvent.txClose] }

/-- Sample fetch result used in concrete instantiations. -/
def sampleFetch : Int → List FundingPoint :=
  fun _ => [{ rate := 1 / 10000, timestamp := 14400 }]

/-! ## Repository bulk insert (shared/repositories/utils.py and base.py) -/

/-- The conflict key of the `funding_rate_record` hypertable:
`PrimaryKeyConstraint("contract_id", "timestamp")`. -/
def hfpKey (p : HistoricalFundingPoint) : String × Int := (p.contract_id, p.timestamp)

/-- One row of an `INSERT ... ON CONFLICT DO NOTHING` statement on
`funding_rate_record`: a row whose key is already present is skipped. -/
def insert_ignore_row (table : List HistoricalFundingPoint)
    (r : HistoricalFundingPoint) : List HistoricalFundingPoint :=
  if hfpKey r ∈ table.map hfpKey then table else table ++ [r]

/-- The chunking loop `for i in range(0, len(values), chunk_size)` of
`bulk_insert` (utils.py lines 62-63), written with the list length as fuel;
with `chunk_size ≥ 1` and fuel `l.length` it produces exactly the Python
chunks `values[i : i + chunk_size]`. -/
def chunksOfAux {α : Type} (chunk_size : Nat) : Nat → List α → List (List α)
  | 0, _ => []
  | _, [] => []
  | fuel + 1, x :: xs =>
    ((x :: xs).take chunk_size) :: chunksOfAux chunk_size fuel ((x :: xs).drop chunk_size)

/-- The chunks of `l` of size `chunk_size` (last one possibly shorter). -/
def chunksOf {α : Type} (chunk_size : Nat) (l : List α) : List (List α) :=
  chunksOfAux chunk_size l.length l

/-- Execution of one chunk's `INSERT` statement with `on_conflict_do_nothing`
(utils.py lines 64-67 and 78). -/
def exec_insert_ignore_chunk (table chunk : List HistoricalFundingPoint) :
    List HistoricalFundingPoint :=
  chunk.foldl insert_ignore_row table

/-- Method `Repository.bulk_insert_ignore` (base.py lines 23-30) on the
historical-funding-point table: `bulk_insert(session, model, records,
on_conflict="ignore")` with the default `chunk_size = 1000`. -/
def bulk_insert_ignore (table records : List HistoricalFundingPoint) :
    List HistoricalFundingPoint :=
  (chunksOf 1000 records).foldl exec_insert_ignore_chunk table

/-- Sample historical point used in concrete instantiations. -/
def samplePoint : HistoricalFundingPoint :=
  { contract_id := "BTC", timestamp := 0, funding_rate := 1 / 10000 }

/-! ## Paradex hourly aggregation (exchanges/paradex.py) -/

/-- A raw Paradex `funding/data` record: `created_at` in milliseconds and the
venue's cumulative 8-hour `funding_rate`. -/
structure RawFundingRecord where
  created_at : Int
  funding_rate : ℚ
deriving DecidableEq

/-- The bucket label computed at `_aggregate_to_hourly` lines 277-282:
`datetime.fromtimestamp(ms/1000)` floored to the hour by
`replace(minute=0, second=0, microsecond=0)` (floor toward minus infinity,
hence `Int.fdiv`), plus one hour, back in milliseconds. -/
def hour_end_ms (created_at_ms : Int) : Int :=
  created_at_ms.fdiv 3600000 * 3600000 + 3600000

/-- The rates collected into `hourly_groups[b]`, in record order. -/
def bucket_rates (raw : List RawFundingRecord) (b : Int) : List ℚ :=
  (raw.filter (fun r => hour_end_ms r.created_at == b)).map (·.funding_rate)

/-- Method `ParadexExchange._aggregate_to_hourly` (paradex.py lines 254-298): group
the raw records by `hour_end_ms`, then for each bucket key in increasing order
emit one point whose rate is the arithmetic mean of the bucket's raw rates
divided by 8 and whose timestamp is the bucket label (milliseconds). -/
def aggregate_to_hourly (raw : List RawFundingRecord) : List FundingPoint :=
  (((raw.map (fun r => hour_end_ms r.created_at)).dedup).insertionSort (· ≤ ·)).map
    (fun b =>
      { rate := (bucket_rates raw b).sum / ((bucket_rates raw b).length : ℚ) / 8,
        timestamp := b })

/-- The seed-test input for the Paradex aggregator: 720 records at 5-second
spacing spanning the hour `[1440000000000 ms, 1440003600000 ms)`, with raw
rates alternating between 1e-4 and 3e-4 (average 2e-4). -/
def paradexExampleRaw : List RawFundingRecord :=
  (List.range 720).map (fun (i : Nat) =>
    { created_at := 1440000000000 + 5000 * (i : Int),
      funding_rate := if i % 2 = 0 then 1 / 10000 else 3 / 10000 })

theorem pySliceStep_zero_one {α : Type} (l : List α) : pySliceStep l 0 1 = l := by
  induction l with
  | nil => rfl
  | cons x xs ih => simpa [pySliceStep] using ih

theorem sampleExchanges_sorted :
    (["a", "b", "c", "d", "e", "f", "g"] : List String).Sorted (· ≤ ·) := by
  simp [List.sorted_cons, String.le_iff_toList_le]
  decide

theorem sharding_concrete_example :
    build_runtime_config_exchanges ["a", "b", "c", "d", "e", "f", "g"] 1 3 =
      Except.ok ["b", "e"] := by
  unfold build_runtime_config_exchanges filter_exchanges_by_instance
  rw [if_neg (by norm_num), if_neg (by norm_num), if_neg (by norm_num),
    if_pos (by norm_num), if_neg (by norm_num)]
  show Except.ok (pySliceStep (pySorted _) _ _) = _
  rw [show pySorted ["a", "b", "c", "d", "e", "f", "g"] = ["a", "b", "c", "d", "e", "f", "g"]
    from sampleExchanges_sorted.insertionSort_eq]
  rfl

/-- C7: configurations with `total_instances ≤ 0`, `instance_id < 0`, or
`instance_id ≥ total_instances` are rejected with an error, and every accepted
configuration runs exactly the slice `sorted(exchanges)[instance_id::total_instances]`;
in particular `total_instances = 3`, `instance_id = 1` on the sorted list
`[a,b,c,d,e,f,g]` yields `[b,e]`. -/
theorem c7_instance_sharding (instance_id total_instances : Int) (l : List String)
    (hs : l.Sorted (· ≤ ·)) :
    ((∃ msg, build_runtime_config_exchanges l instance_id total_instances =
        Except.error msg) ↔
      (total_instances ≤ 0 ∨ instance_id < 0 ∨ instance_id ≥ total_instances)) ∧
    (∀ out, build_runtime_config_exchanges l instance_id total_instances = Except.ok out →
      out = pySliceStep l instance_id.toNat total_instances.toNat) ∧
    build_runtime_config_exchanges ["a", "b", "c", "d", "e", "f", "g"] 1 3 =
      Except.ok ["b", "e"] := by
  refine ⟨?_, ?_, sharding_concrete_example⟩
  · unfold build_runtime_config_exchanges
    split
    · exact ⟨fun _ => Or.inl (by assumption), fun _ => ⟨_, rfl⟩⟩
    · split
      · exact ⟨fun _ => Or.inr (Or.inl (by assumption)), fun _ => ⟨_, rfl⟩⟩
      · split
        · exact ⟨fun _ => Or.inr (Or.inr (by assumption)), fun _ => ⟨_, rfl⟩⟩
        · constructor
          · rintro ⟨msg, hmsg⟩
            split at hmsg <;> simp at hmsg
          · intro hcase
            omega
  · intro out hout
    unfold build_runtime_config_exchanges at hout
    split at hout
    · simp at hout
    · split at hout
      · simp at hout
      · split at hout
        · simp at hout
        · rename_i h1 h2 h3
          split at hout
          · rename_i h4
            simp only [Except.ok.injEq] at hout
            subst hout
            unfold filter_exchanges_by_instance
            rw [if_neg (by omega)]
            rw [show pySorted l = l from hs.insertionSort_eq]
          · rename_i h4
            simp only [Except.ok.injEq] at hout
            subst hout
            have hid : instance_id = 0 := by omega
            have htot : total_instances = 1 := by omega
            subst hid htot
            exact (pySliceStep_zero_one l).symm

/-- Witness for C7 at a concrete sorted input. -/
theorem c7_instance_sharding_witness :
    (["a", "b", "c", "d", "e", "f", "g"] : List String).Sorted (· ≤ ·) ∧
    build_runtime_config_exchanges ["a", "b", "c", "d", "e", "f", "g"] 1 3 =
      Except.ok ["b", "e"] :=
  ⟨by simp [List.sorted_cons, String.le_iff_toList_le]; decide,
    (c7_instance_sharding 1 3 ["a", "b", "c", "d", "e", "f", "g"]
      (by simp [List.sorted_cons, String.le_iff_toList_le]; decide)).2.2⟩

/-- C6: `check_and_refresh_if_needed()` is a no-op unless a refresh is pending
and at least `debounce_seconds` (default 10) have elapsed since
`last_signal_time`; when it does run the refresh it clears both fields exactly
when the refresh succeeds, and when the refresh raises it leaves both fields
unchanged so the next tick retries. -/
theorem c6_refresher_debounce (s : RefresherState) (now debounce_seconds : ℚ)
    (refresh_succeeds : Bool) :
    ((¬ (s.pending_refresh = true ∧
        ∃ t, s.last_signal_time = some t ∧ now - t ≥ debounce_seconds)) →
      check_and_refresh_if_needed s now debounce_seconds refresh_succeeds = (s, false)) ∧
    (∀ t, s.last_signal_time = some t → s.pending_refresh = true →
      now - t ≥ debounce_seconds →
      check_and_refresh_if_needed s now debounce_seconds true =
        ({ last_signal_time := none, pending_refresh := false }, true)) ∧
    (∀ t, s.last_signal_time = some t → s.pending_refresh = true →
      now - t ≥ debounce_seconds →
      check_and_refresh_if_needed s now debounce_seconds false = (s, true)) := by
  refine ⟨?_, ?_, ?_⟩
  · intro hno
    unfold check_and_refresh_if_needed
    rcases hp : s.pending_refresh with _ | _
    · simp
    · rcases hl : s.last_signal_time with _ | t
      · simp
      · rw [if_neg (by simp [hp, hl])]
        have helapsed : ¬ (now - t ≥ debounce_seconds) := by
          intro hge
          exact hno ⟨hp, t, hl, hge⟩
        simp [helapsed]
  · intro t hl hp hge
    unfold check_and_refresh_if_needed
    rw [if_neg (by simp [hp, hl])]
    simp [hl, hge]
  · intro t hl hp hge
    unfold check_and_refresh_if_needed
    rw [if_neg (by simp [hp, hl])]
    simp [hl, hge]

/-- Witness for C6: a pending signal at time 0, checked at time 10 with
debounce 10, performs the refresh and clears both fields. -/
theorem c6_refresher_debounce_witness :
    (some (0 : ℚ) = some (0 : ℚ) ∧ (10 : ℚ) - 0 ≥ 10) ∧
    check_and_refresh_if_needed ⟨some 0, true⟩ 10 10 true =
      ({ last_signal_time := none, pending_refresh := false }, true) :=
  ⟨⟨rfl, by norm_num⟩,
    (c6_refresher_debounce ⟨some 0, true⟩ 10 10 true).2.1 0 rfl rfl (by norm_num)⟩

/-- C4: for an adapter whose `get_contracts()` returns an empty list,
`register_contracts` logs the empty response and returns without performing any
database operation: the Section, Quote, Asset and Contract tables are exactly
as they were, and the MV refresher is not signalled. -/
theorem c4_empty_registry_noop (s : String) (db : DBState) :
    register_contracts [] s db = (db, false) := rfl

/-- C2 counterexample: when `register_contracts` raises during `update()`, the
orchestrator does not proceed to step (2): the section's contracts are not read
and nothing is processed, contradicting the claim that it "still proceeds to
step (2)". -/
theorem c2_counterexample :
    ¬ ((exchange_orchestrator_update true [sampleContract]).propagated = false ∧
       (exchange_orchestrator_update true [sampleContract]).contracts_read = true) := by
  intro h
  have : (exchange_orchestrator_update true [sampleContract]).contracts_read = false := rfl
  rw [this] at h
  exact absurd h.2 (by simp)

/-- C2 amended: for every exception raised by `register_contracts` during an
`update()` invocation, the orchestrator catches and logs it without propagating
it, but then returns immediately without reading or processing the section's
contracts; step (2) — reading all contracts (including deprecated) and
processing each with `sync_contract` (when `synced = false`) or
`update_contract` (when `synced = true`) — runs only when `register_contracts`
completes without raising. -/
theorem c2_amended_no_propagation (contracts : List ContractRow) :
    exchange_orchestrator_update true contracts =
      { propagated := false, contracts_read := false, processed := [] } ∧
    exchange_orchestrator_update false contracts =
      { propagated := false, contracts_read := true,
        processed := contracts.map (fun c =>
          (c, if c.synced then ProcMode.updateMode else ProcMode.syncMode)) } := by
  refine ⟨rfl, ?_⟩
  unfold exchange_orchestrator_update
  rw [if_neg (by simp)]
  by_cases hc : contracts.isEmpty
  · rw [if_pos hc, List.isEmpty_iff.mp hc]
    rfl
  · rw [if_neg hc]

theorem contractKey_update (x r : ContractRow) :
    contractKey
      { x with funding_interval := r.funding_interval, deprecated := r.deprecated } =
    contractKey x := rfl

theorem upsert_many_cons (t : List ContractRow) (r : ContractRow)
    (rest : List ContractRow) :
    upsert_many t (r :: rest) = upsert_many (upsert_one t r) rest := rfl

theorem mem_of_mem_upsert_one (t : List ContractRow) (r row : ContractRow)
    (hrow : row ∈ upsert_one t r) (hne : contractKey row ≠ contractKey r) :
    row ∈ t := by
  unfold upsert_one at hrow
  split at hrow
  · obtain ⟨x, hx, hfx⟩ := List.mem_map.mp hrow
    by_cases hk : contractKey x = contractKey r
    · rw [if_pos hk] at hfx
      exact absurd (hfx ▸ (contractKey_update x r).trans hk) hne
    · rw [if_neg hk] at hfx
      exact hfx ▸ hx
  · rcases List.mem_append.mp hrow with h | h
    · exact h
    · rw [List.mem_singleton.mp h] at hne
      exact absurd rfl hne

theorem mem_upsert_one_of_ne (t : List ContractRow) (r row : ContractRow)
    (hrow : row ∈ t) (hne : contractKey row ≠ contractKey r) :
    row ∈ upsert_one t r := by
  unfold upsert_one
  split
  · exact List.mem_map.mpr ⟨row, hrow, by rw [if_neg hne]⟩
  · exact List.mem_append_left _ hrow

theorem mem_upsert_many_of_not_keys (rs : List ContractRow) :
    ∀ (t : List ContractRow) (row : ContractRow), row ∈ t →
      contractKey row ∉ rs.map contractKey → row ∈ upsert_many t rs := by
  induction rs with
  | nil => exact fun t row hrow _ => hrow
  | cons r rest ih =>
    intro t row hrow hne
    simp only [List.map_cons, List.mem_cons, not_or] at hne
    rw [upsert_many_cons]
    exact ih _ row (mem_upsert_one_of_ne t r row hrow hne.1) hne.2

theorem mem_of_mem_upsert_many (rs : List ContractRow) :
    ∀ (t : List ContractRow) (row : ContractRow), row ∈ upsert_many t rs →
      contractKey row ∉ rs.map contractKey → row ∈ t := by
  induction rs with
  | nil => exact fun t row hrow _ => hrow
  | cons r rest ih =>
    intro t row hrow hne
    simp only [List.map_cons, List.mem_cons, not_or] at hne
    rw [upsert_many_cons] at hrow
    exact mem_of_mem_upsert_one t r row (ih _ row hrow hne.2) hne.1

theorem upsert_one_deprecated_of_key (t : List ContractRow) (r row : ContractRow)
    (hrow : row ∈ upsert_one t r) (hk : contractKey row = contractKey r) :
    row.deprecated = r.deprecated := by
  unfold upsert_one at hrow
  split at hrow
  · obtain ⟨x, hx, hfx⟩ := List.mem_map.mp hrow
    by_cases hxk : contractKey x = contractKey r
    · rw [if_pos hxk] at hfx
      rw [← hfx]
    · rw [if_neg hxk] at hfx
      exact absurd (hfx ▸ hk) hxk
  · rename_i hnotin
    rcases List.mem_append.mp hrow with h | h
    · exact absurd (hk ▸ List.mem_map_of_mem contractKey h) hnotin
    · rw [List.mem_singleton.mp h]

theorem upsert_many_deprecated_false (rs : List ContractRow)
    (hdep : ∀ r ∈ rs, r.deprecated = false) :
    ∀ (t : List ContractRow) (row : ContractRow), row ∈ upsert_many t rs →
      contractKey row ∈ rs.map contractKey → row.deprecated = false := by
  induction rs with
  | nil => intro t row _ hk; simp at hk
  | cons r rest ih =>
    intro t row hrow hkey
    rw [upsert_many_cons] at hrow
    by_cases hk : contractKey row ∈ rest.map contractKey
    · exact ih (fun x hx => hdep x (List.mem_cons_of_mem r hx)) _ row hrow hk
    · have hkr : contractKey row = contractKey r := by
        simp only [List.map_cons, List.mem_cons] at hkey
        tauto
      have hmem : row ∈ upsert_one t r := mem_of_mem_upsert_many rest _ row hrow hk
      rw [upsert_one_deprecated_of_key t r row hmem hkr]
      exact hdep r (List.mem_cons_self r rest)

theorem upsert_one_key_exists (t : List ContractRow) (r : ContractRow) :
    ∃ row ∈ upsert_one t r, contractKey row = contractKey r := by
  unfold upsert_one
  split
  · rename_i hin
    obtain ⟨x, hx, hkx⟩ := List.mem_map.mp hin
    exact ⟨_, List.mem_map_of_mem _ hx, by rw [if_pos hkx, contractKey_update, hkx]⟩
  · exact ⟨r, List.mem_append_right _ (List.mem_singleton_self r), rfl⟩

theorem upsert_one_key_preserved (t : List ContractRow) (r : ContractRow)
    (k : String × String × String) (h : ∃ x ∈ t, contractKey x = k) :
    ∃ x ∈ upsert_one t r, contractKey x = k := by
  obtain ⟨x, hx, hkx⟩ := h
  unfold upsert_one
  split
  · refine ⟨_, List.mem_map_of_mem _ hx, ?_⟩
    by_cases hxr : contractKey x = contractKey r
    · rw [if_pos hxr, contractKey_update, hkx]
    · rw [if_neg hxr, hkx]
  · exact ⟨x, List.mem_append_left _ hx, hkx⟩

theorem upsert_many_key_preserved (rs : List ContractRow) :
    ∀ (t : List ContractRow) (k : String × String × String),
      (∃ x ∈ t, contractKey x = k) → ∃ x ∈ upsert_many t rs, contractKey x = k := by
  induction rs with
  | nil => exact fun t k h => h
  | cons r rest ih =>
    intro t k h
    rw [upsert_many_cons]
    exact ih _ k (upsert_one_key_preserved t r k h)

theorem upsert_many_key_exists (rs : List ContractRow) :
    ∀ (t : List ContractRow) (r : ContractRow), r ∈ rs →
      ∃ row ∈ upsert_many t rs, contractKey row = contractKey r := by
  induction rs with
  | nil => intro t r hr; simp at hr
  | cons x rest ih =>
    intro t r hr
    rw [upsert_many_cons]
    rcases List.mem_cons.mp hr with h | h
    · subst h
      exact upsert_many_key_preserved rest _ _ (upsert_one_key_exists t r)
    · exact ih _ r h

theorem register_contracts_result (api : List ContractInfo) (s : String)
    (db : DBState) (h : api ≠ []) :
    ((register_contracts api s db).1).contracts =
      upsert_many
        (db.contracts.map
          (mark_deprecated_row s (api.map (fun c => (c.asset_name, c.quote)))))
        (api.map (fresh_contract s)) := by
  unfold register_contracts
  rw [if_neg (by simp [List.isEmpty_iff, h])]

/-- C5: after every completed `register_contracts` run with a non-empty fetched
list, (1) every contract of the section whose `(asset, quote)` key appears in
the fetched list has `deprecated = false` (so a reappearing contract is
un-deprecated), (2) every pre-existing contract of the section whose key is
absent from the fetched list persists with `deprecated = true`, and (3) every
fetched contract is present in the table with `deprecated = false`. -/
theorem c5_deprecation_flags (db : DBState) (s : String) (api : List ContractInfo)
    (h : api ≠ []) :
    (∀ row ∈ ((register_contracts api s db).1).contracts, row.section_name = s →
      (row.asset_name, row.quote_name) ∈ api.map (fun c => (c.asset_name, c.quote)) →
      row.deprecated = false) ∧
    (∀ row ∈ db.contracts, row.section_name = s →
      (row.asset_name, row.quote_name) ∉ api.map (fun c => (c.asset_name, c.quote)) →
      { row with deprecated := true } ∈ ((register_contracts api s db).1).contracts) ∧
    (∀ c ∈ api, ∃ row ∈ ((register_contracts api s db).1).contracts,
      row.asset_name = c.asset_name ∧ row.quote_name = c.quote ∧
      row.section_name = s ∧ row.deprecated = false) := by
  have hres := register_contracts_result api s db h
  have hdepfresh : ∀ r ∈ api.map (fresh_contract s), r.deprecated = false := by
    rintro r hr
    obtain ⟨c, _, rfl⟩ := List.mem_map.mp hr
    rfl
  have hkeyfresh : ∀ (row : ContractRow), row.section_name = s →
      (row.asset_name, row.quote_name) ∈ api.map (fun c => (c.asset_name, c.quote)) →
      contractKey row ∈ (api.map (fresh_contract s)).map contractKey := by
    intro row hsec hpair
    obtain ⟨c, hc, hpc⟩ := List.mem_map.mp hpair
    rw [List.map_map]
    refine List.mem_map.mpr ⟨c, hc, ?_⟩
    have h1 : c.asset_name = row.asset_name := congrArg Prod.fst hpc
    have h2 : c.quote = row.quote_name := congrArg Prod.snd hpc
    simp [Function.comp, contractKey, fresh_contract, h1, h2, hsec]
  refine ⟨?_, ?_, ?_⟩
  · intro row hrow hsec hpair
    rw [hres] at hrow
    exact upsert_many_deprecated_false (api.map (fresh_contract s)) hdepfresh _ row hrow
      (hkeyfresh row hsec hpair)
  · intro row hrow hsec hpair
    rw [hres]
    apply mem_upsert_many_of_not_keys
    · refine List.mem_map.mpr ⟨row, hrow, ?_⟩
      unfold mark_deprecated_row
      rw [if_pos ⟨hsec, hpair⟩]
    · intro hk
      rw [List.map_map] at hk
      obtain ⟨c, hc, hck⟩ := List.mem_map.mp hk
      apply hpair
      refine List.mem_map.mpr ⟨c, hc, ?_⟩
      have h1 : c.asset_name = row.asset_name := congrArg (fun k => k.1) hck
      have h2 : c.quote = row.quote_name := congrArg (fun k => k.2.2) hck
      rw [h1, h2]
  · intro c hc
    obtain ⟨row, hrow, hkey⟩ := upsert_many_key_exists (api.map (fresh_contract s)) _
      (fresh_contract s c) (List.mem_map_of_mem _ hc)
    rw [← hres] at hrow
    have h1 : row.asset_name = c.asset_name := congrArg (fun k => k.1) hkey
    have h2 : row.section_name = s := congrArg (fun k => k.2.1) hkey
    have h3 : row.quote_name = c.quote := congrArg (fun k => k.2.2) hkey
    refine ⟨row, hrow, h1, h3, h2, ?_⟩
    refine upsert_many_deprecated_false (api.map (fresh_contract s)) hdepfresh _ row
      (hres ▸ hrow) (hkeyfresh row h2 ?_)
    exact List.mem_map.mpr ⟨c, hc, by rw [h1, h3]⟩

/-- Witness for C5: registering `[BTC-USD]` on a section that previously held
BTC-USD and ETH-USD marks ETH-USD deprecated and keeps BTC-USD active. -/
theorem c5_deprecation_flags_witness :
    ([⟨"BTC", "USD", 8, "hyperliquid"⟩] : List ContractInfo) ≠ [] ∧
    { asset_name := "ETH", quote_name := "USD", section_name := "hyperliquid",
      funding_interval := 1, deprecated := true, synced := true : ContractRow } ∈
      ((register_contracts [⟨"BTC", "USD", 8, "hyperliquid"⟩] "hyperliquid"
        { sections := ["hyperliquid"], assets := ["BTC", "ETH"], quotes := ["USD"],
          contracts := [sampleContract,
            { asset_name := "ETH", quote_name := "USD", section_name := "hyperliquid",
              funding_interval := 1, deprecated := false, synced := true }] }).1).contracts :=
  ⟨by simp,
    (c5_deprecation_flags
      { sections := ["hyperliquid"], assets := ["BTC", "ETH"], quotes := ["USD"],
        contracts := [sampleContract,
          { asset_name := "ETH", quote_name := "USD", section_name := "hyperliquid",
            funding_interval := 1, deprecated := false, synced := true }] }
      "hyperliquid" [⟨"BTC", "USD", 8, "hyperliquid"⟩] (by simp)).2.1
      { asset_name := "ETH", quote_name := "USD", section_name := "hyperliquid",
        funding_interval := 1, deprecated := false, synced := true }
      (by simp) rfl (by simp)⟩

/-- C1: the claim states that no upstream HTTP call ever occurs while a
unit-of-work session is open, for both history coordinators. This holds for
every execution of `sync_contract` (which closes each session before
fetching), but `update_contract` runs its entire body — including the
`fetch_history_after` call at line 139 — inside the single session opened at
line 114, so its trace contains an HTTP call at transaction depth 1. Shown
here at a concrete input with a stored newest point and an elapsed interval. -/
theorem c1_transaction_http_trace :
    (∀ (synced : Bool) (batches : List (List FundingPoint)),
      no_http_in_open_tx 0 (sync_contract_trace synced batches) = true) ∧
    no_http_in_open_tx 0
      (update_contract 8 "BTC" (some 0) 30000 sampleFetch).trace = false := by
  constructor
  · intro synced batches
    cases synced with
    | true => rfl
    | false =>
      show no_http_in_open_tx 0 (sync_contract_trace_loop batches) = true
      induction batches with
      | nil => rfl
      | cons b bs ih =>
        by_cases hb : b.isEmpty
        · simp [sync_contract_trace_loop, hb, no_http_in_open_tx]
        · simp [sync_contract_trace_loop, hb, no_http_in_open_tx, ih]
  · rfl

/-- C3 counterexample: with `funding_interval = 8` hours, newest stored
timestamp 0 and `now = 28800` (exactly eight hours later), the claim's skip
condition `now − newest < funding_interval` is false, so the claim requires a
`fetch_history_after` call — but the code compares `now − (newest + 1s)` and
skips, making no HTTP call and returning 0. -/
theorem c3_counterexample :
    ¬ ((28800 : Int) - 0 < 8 * 3600) ∧
    (update_contract 8 "BTC" (some 0) 28800 sampleFetch).http_calls = 0 ∧
    (update_contract 8 "BTC" (some 0) 28800 sampleFetch).returned = 0 ∧
    (update_contract 8 "BTC" (some 0) 28800 sampleFetch).inserted = [] :=
  ⟨by norm_num, rfl, rfl, rfl⟩

/-- C3 amended: for every contract with a stored newest timestamp,
`update_contract` returns 0 and inserts nothing whenever
`now − (newest + 1s) < funding_interval` hours — i.e. the elapsed time is
measured from one second after the newest stored point, so the update is also
skipped when exactly the interval has elapsed — and otherwise calls
`fetch_history_after(contract, newest + 1s)` exactly once and insert-ignores
the returned points, returning their count. -/
theorem c3_amended_update_contract (funding_interval : Int) (cid : String)
    (newest_ts now : Int) (fetch : Int → List FundingPoint) :
    (now - (newest_ts + 1) < funding_interval * 3600 →
      update_contract funding_interval cid (some newest_ts) now fetch =
        { returned := 0, http_calls := 0, fetch_after_arg := none, inserted := [],
          warned := false,
          trace := [DbEvent.txOpen, DbEvent.dbOp, DbEvent.txClose] }) ∧
    (funding_interval * 3600 ≤ now - (newest_ts + 1) →
      (update_contract funding_interval cid (some newest_ts) now fetch).http_calls = 1 ∧
      (update_contract funding_interval cid (some newest_ts) now fetch).fetch_after_arg =
        some (newest_ts + 1) ∧
      (update_contract funding_interval cid (some newest_ts) now fetch).returned =
        (fetch (newest_ts + 1)).length ∧
      (update_contract funding_interval cid (some newest_ts) now fetch).inserted =
        (fetch (newest_ts + 1)).map (fun p =>
          { contract_id := cid, timestamp := p.timestamp, funding_rate := p.rate })) := by
  constructor
  · intro hlt
    simp only [update_contract]
    rw [if_pos hlt]
  · intro hge
    simp only [update_contract]
    rw [if_neg (not_lt.mpr hge)]
    by_cases hp : (fetch (newest_ts + 1)).isEmpty
    · rw [if_pos hp]
      have hnil : fetch (newest_ts + 1) = [] := List.isEmpty_iff.mp hp
      exact ⟨rfl, rfl, by rw [hnil]; rfl, by rw [hnil]; rfl⟩
    · rw [if_neg hp]
      exact ⟨rfl, rfl, rfl, rfl⟩

/-- Witness for C3 amended: one second past the exact interval, the fetch
fires once. -/
theorem c3_amended_update_contract_witness :
    ((8 : Int) * 3600 ≤ 28802 - (0 + 1)) ∧
    (update_contract 8 "BTC" (some 0) 28802 sampleFetch).http_calls = 1 ∧
    ¬ ((28801 : Int) - (0 + 1) < 8 * 3600) ∧
    (update_contract 8 "BTC" (some 0) 28800 sampleFetch).returned = 0 :=
  ⟨by norm_num,
    ((c3_amended_update_contract 8 "BTC" 0 28802 sampleFetch).2 (by norm_num)).1,
    by norm_num,
    congrArg UpdateContractResult.returned
      ((c3_amended_update_contract 8 "BTC" 0 28800 sampleFetch).1 (by norm_num))⟩

/-- C10: for every contract with no stored historical funding point
(`get_newest_for_contract` returns nothing), `update_contract` logs a warning
and returns 0 without calling `fetch_history_after` and without writing
anything to the database. -/
theorem c10_update_requires_backfill (funding_interval : Int) (cid : String)
    (now : Int) (fetch : Int → List FundingPoint) :
    update_contract funding_interval cid none now fetch =
      { returned := 0, http_calls := 0, fetch_after_arg := none, inserted := [],
        warned := true, trace := [DbEvent.txOpen, DbEvent.dbOp, DbEvent.txClose] } := rfl

theorem chunksOfAux_length_le {α : Type} (n : Nat) :
    ∀ (fuel : Nat) (l c : List α), c ∈ chunksOfAux n fuel l → c.length ≤ n := by
  intro fuel
  induction fuel with
  | zero => intro l c hc; simp [chunksOfAux] at hc
  | succ fuel ih =>
    intro l c hc
    cases l with
    | nil => simp [chunksOfAux] at hc
    | cons x xs =>
      simp only [chunksOfAux, List.mem_cons] at hc
      rcases hc with h | h
      · rw [h]; exact List.length_take_le _ _
      · exact ih _ c h

theorem chunksOfAux_flatten {α : Type} (n : Nat) (hn : 0 < n) :
    ∀ (fuel : Nat) (l : List α), l.length ≤ fuel →
      (chunksOfAux n fuel l).flatten = l := by
  intro fuel
  induction fuel with
  | zero =>
    intro l hl
    rw [List.length_eq_zero.mp (Nat.le_zero.mp hl)]
    cases n <;> rfl
  | succ fuel ih =>
    intro l hl
    cases l with
    | nil => cases n <;> rfl
    | cons x xs =>
      cases n with
      | zero => omega
      | succ m =>
        simp only [chunksOfAux, List.flatten_cons]
        rw [ih ((x :: xs).drop (m + 1))
            (by simp only [List.length_drop, List.length_cons] at hl ⊢; omega),
          List.take_append_drop]

theorem bulk_insert_ignore_eq_foldl (table records : List HistoricalFundingPoint) :
    bulk_insert_ignore table records = records.foldl insert_ignore_row table := by
  have haux : ∀ (fuel : Nat) (l t : List HistoricalFundingPoint), l.length ≤ fuel →
      (chunksOfAux 1000 fuel l).foldl exec_insert_ignore_chunk t =
        l.foldl insert_ignore_row t := by
    intro fuel
    induction fuel with
    | zero =>
      intro l t hl
      rw [List.length_eq_zero.mp (Nat.le_zero.mp hl)]
      rfl
    | succ fuel ih =>
      intro l t hl
      cases l with
      | nil => rfl
      | cons x xs =>
        show ((((x :: xs).take 1000) :: chunksOfAux 1000 fuel ((x :: xs).drop 1000)).foldl
          exec_insert_ignore_chunk t) = _
        rw [List.foldl_cons, ih ((x :: xs).drop 1000) _
          (by simp only [List.length_drop, List.length_cons] at hl ⊢; omega)]
        show ((x :: xs).drop 1000).foldl insert_ignore_row
          (((x :: xs).take 1000).foldl insert_ignore_row t) = _
        rw [← List.foldl_append, List.take_append_drop]
  exact haux records.length records table le_rfl

theorem mem_foldl_insert_ignore (rs : List HistoricalFundingPoint) :
    ∀ (t : List HistoricalFundingPoint) (x : HistoricalFundingPoint), x ∈ t →
      x ∈ rs.foldl insert_ignore_row t := by
  induction rs with
  | nil => exact fun t x hx => hx
  | cons r rest ih =>
    intro t x hx
    apply ih
    unfold insert_ignore_row
    split
    · exact hx
    · exact List.mem_append_left _ hx

theorem key_mem_foldl_insert_ignore (rs : List HistoricalFundingPoint) :
    ∀ (t : List HistoricalFundingPoint) (r : HistoricalFundingPoint), r ∈ rs →
      hfpKey r ∈ (rs.foldl insert_ignore_row t).map hfpKey := by
  induction rs with
  | nil => intro t r hr; simp at hr
  | cons x rest ih =>
    intro t r hr
    rcases List.mem_cons.mp hr with h | h
    · subst h
      have hbase : hfpKey r ∈ (insert_ignore_row t r).map hfpKey := by
        unfold insert_ignore_row
        split
        · assumption
        · simp
      obtain ⟨y, hy, hky⟩ := List.mem_map.mp hbase
      exact hky ▸ List.mem_map_of_mem hfpKey (mem_foldl_insert_ignore rest _ y hy)
    · exact ih _ r h

theorem foldl_insert_ignore_noop (rs : List HistoricalFundingPoint) :
    ∀ (t : List HistoricalFundingPoint), (∀ r ∈ rs, hfpKey r ∈ t.map hfpKey) →
      rs.foldl insert_ignore_row t = t := by
  induction rs with
  | nil => exact fun t _ => rfl
  | cons r rest ih =>
    intro t h
    have h1 : insert_ignore_row t r = t := by
      unfold insert_ignore_row
      rw [if_pos (h r (List.mem_cons_self r rest))]
    rw [List.foldl_cons, h1]
    exact ih t (fun x hx => h x (List.mem_cons_of_mem r hx))

/-- C9: `bulk_insert_ignore` splits the records into chunks of at most 1000
rows per INSERT statement (the chunks concatenate back to the record list),
inserting a row whose `(contract_id, timestamp)` key already exists is a
no-op, and running the same `bulk_insert_ignore` twice leaves the table equal
to running it once. -/
theorem c9_bulk_insert_idempotent :
    (∀ (records c : List HistoricalFundingPoint),
      c ∈ chunksOf 1000 records → c.length ≤ 1000) ∧
    (∀ records : List HistoricalFundingPoint, (chunksOf 1000 records).flatten = records) ∧
    (∀ (table : List HistoricalFundingPoint) (r : HistoricalFundingPoint),
      hfpKey r ∈ table.map hfpKey → bulk_insert_ignore table [r] = table) ∧
    (∀ table records : List HistoricalFundingPoint,
      bulk_insert_ignore (bulk_insert_ignore table records) records =
        bulk_insert_ignore table records) := by
  refine ⟨?_, ?_, ?_, ?_⟩
  · intro records c hc
    exact chunksOfAux_length_le 1000 _ _ c hc
  · intro records
    exact chunksOfAux_flatten 1000 (by norm_num) _ records le_rfl
  · intro table r h
    rw [bulk_insert_ignore_eq_foldl]
    refine foldl_insert_ignore_noop [r] table ?_
    intro x hx
    rw [List.mem_singleton.mp hx]
    exact h
  · intro table records
    simp only [bulk_insert_ignore_eq_foldl]
    exact foldl_insert_ignore_noop records _
      (fun r hr => key_mem_foldl_insert_ignore records table r hr)

/-- Witness for C9 at a concrete one-row table. -/
theorem c9_bulk_insert_idempotent_witness :
    ([samplePoint] ∈ chunksOf 1000 [samplePoint] ∧ [samplePoint].length ≤ 1000) ∧
    (hfpKey samplePoint ∈ [samplePoint].map hfpKey ∧
      bulk_insert_ignore [samplePoint] [samplePoint] = [samplePoint]) :=
  ⟨⟨by simp [chunksOf, chunksOfAux],
      c9_bulk_insert_idempotent.1 [samplePoint] [samplePoint]
        (by simp [chunksOf, chunksOfAux])⟩,
    ⟨by simp,
      c9_bulk_insert_idempotent.2.2.1 [samplePoint] samplePoint (by simp)⟩⟩

theorem hour_end_ms_of_lt (k r : Int) (h0 : 0 ≤ r) (h1 : r < 3600000) :
    hour_end_ms (3600000 * k + r) = 3600000 * k + 3600000 := by
  unfold hour_end_ms
  have hdiv : (3600000 * k + r) / 3600000 = k := by
    rw [show 3600000 * k + r = r + 3600000 * k by ring,
      Int.add_mul_ediv_left r k (by norm_num), Int.ediv_eq_zero_of_lt h0 h1]
    ring
  rw [Int.fdiv_eq_ediv _ (by norm_num), hdiv]
  ring

theorem dedup_replicate_int (B : Int) : ∀ n : Nat, (List.replicate (n + 1) B).dedup = [B] := by
  intro n
  induction n with
  | zero => simp
  | succ n ih =>
    rw [List.replicate_succ, List.dedup_cons_of_mem (by simp [List.mem_replicate]), ih]

theorem sum_alternating (a b : ℚ) :
    ∀ n : Nat, ((List.range (2 * n)).map (fun i => if i % 2 = 0 then a else b)).sum =
      n * (a + b) := by
  intro n
  induction n with
  | zero => simp
  | succ n ih =>
    have h1 : 2 * (n + 1) = (2 * n + 1) + 1 := by ring
    rw [h1, List.range_succ, List.range_succ, List.map_append, List.map_append,
      List.sum_append, List.sum_append, ih]
    have he : (2 * n) % 2 = 0 := by omega
    have ho : (2 * n + 1) % 2 = 1 := by omega
    simp [he, ho]
    ring

theorem paradex_example_keys :
    paradexExampleRaw.map (fun r => hour_end_ms r.created_at) =
      List.replicate 720 1440003600000 := by
  rw [List.eq_replicate_iff]
  constructor
  · show (paradexExampleRaw.map _).length = 720
    simp only [paradexExampleRaw, List.length_map, List.length_range]
  · intro b hb
    rw [List.mem_map] at hb
    obtain ⟨rec, hrec, rfl⟩ := hb
    unfold paradexExampleRaw at hrec
    rw [List.mem_map] at hrec
    obtain ⟨i, hi, rfl⟩ := hrec
    rw [List.mem_range] at hi
    show hour_end_ms (1440000000000 + 5000 * (i : Int)) = 1440003600000
    have hi2 : (i : Int) < 720 := by exact_mod_cast hi
    have hi0 : (0 : Int) ≤ (i : Int) := Int.ofNat_nonneg i
    have hrw : (1440000000000 : Int) + 5000 * (i : Int) =
        3600000 * 400000 + 5000 * (i : Int) := by norm_num
    rw [hrw, hour_end_ms_of_lt 400000 (5000 * (i : Int)) (by omega) (by omega)]
    norm_num

set_option maxRecDepth 40000 in
theorem paradex_example_aggregate :
    aggregate_to_hourly paradexExampleRaw =
      [{ rate := 1 / 40000, timestamp := 1440003600000 }] := by
  have hkeys := paradex_example_keys
  have hbucket : bucket_rates paradexExampleRaw 1440003600000 =
      (List.range 720).map (fun i => if i % 2 = 0 then (1 : ℚ) / 10000 else 3 / 10000) := by
    unfold bucket_rates
    rw [List.filter_eq_self.mpr ?_]
    · show paradexExampleRaw.map (fun r => r.funding_rate) = _
      unfold paradexExampleRaw
      rw [List.map_map]
      rfl
    · intro r hr
      have hmem : hour_end_ms r.created_at ∈
          paradexExampleRaw.map (fun x => hour_end_ms x.created_at) :=
        List.mem_map_of_mem _ hr
      rw [hkeys] at hmem
      simp [List.eq_of_mem_replicate hmem]
  have hrate : (bucket_rates paradexExampleRaw 1440003600000).sum /
      ((bucket_rates paradexExampleRaw 1440003600000).length : ℚ) / 8 = 1 / 40000 := by
    rw [hbucket,
      show (720 : ℕ) = 2 * 360 from rfl,
      sum_alternating (1 / 10000 : ℚ) (3 / 10000) 360]
    simp only [List.length_map, List.length_range]
    norm_num
  unfold aggregate_to_hourly
  rw [hkeys, show (720 : ℕ) = 719 + 1 from rfl, dedup_replicate_int 1440003600000 719]
  rw [show List.insertionSort (· ≤ ·) [(1440003600000 : Int)] = [1440003600000] from rfl]
  rw [List.map_cons, List.map_nil, hrate]

theorem aggregate_timestamps (raw : List RawFundingRecord) :
    (aggregate_to_hourly raw).map FundingPoint.timestamp =
      ((raw.map (fun r => hour_end_ms r.created_at)).dedup).insertionSort (· ≤ ·) := by
  unfold aggregate_to_hourly
  rw [List.map_map]
  exact List.map_id _

/-- C8: the hourly aggregator groups each raw record into the bucket labeled
by its timestamp floored to the hour plus one hour, emits exactly one point
per non-empty bucket in strictly increasing timestamp order, with rate equal
to the arithmetic mean of the bucket's raw rates divided by 8; in particular
720 records spanning one hour whose raw rates average 2e-4 yield one point at
the end of that hour with rate 2.5e-5. -/
theorem c8_paradex_hourly (raw : List RawFundingRecord) :
    ((aggregate_to_hourly raw).map FundingPoint.timestamp).Sorted (· < ·) ∧
    (∀ b : Int, b ∈ (aggregate_to_hourly raw).map FundingPoint.timestamp ↔
      ∃ r ∈ raw, r.created_at.fdiv 3600000 * 3600000 + 3600000 = b) ∧
    (∀ p ∈ aggregate_to_hourly raw,
      p.rate = (bucket_rates raw p.timestamp).sum /
        ((bucket_rates raw p.timestamp).length : ℚ) / 8) ∧
    aggregate_to_hourly paradexExampleRaw =
      [{ rate := 1 / 40000, timestamp := 1440003600000 }] := by
  refine ⟨?_, ?_, ?_, ?_⟩
  · rw [aggregate_timestamps]
    refine List.Sorted.lt_of_le (List.sorted_insertionSort _ _) ?_
    exact (List.perm_insertionSort _ _).nodup_iff.mpr (List.nodup_dedup _)
  · intro b
    rw [aggregate_timestamps]
    simp [List.mem_insertionSort, List.mem_dedup, List.mem_map, hour_end_ms]
  · intro p hp
    unfold aggregate_to_hourly at hp
    obtain ⟨b, _, rfl⟩ := List.mem_map.mp hp
    rfl
  · exact paradex_example_aggregate

/-- Witness for C8 at the 720-record seed input. -/
theorem c8_paradex_hourly_witness :
    ({ rate := 1 / 40000, timestamp := 1440003600000 } : FundingPoint) ∈
      aggregate_to_hourly paradexExampleRaw ∧
    ({ rate := 1 / 40000, timestamp := 1440003600000 } : FundingPoint).rate =
      (bucket_rates paradexExampleRaw 1440003600000).sum /
        ((bucket_rates paradexExampleRaw 1440003600000).length : ℚ) / 8 := by
  have hmem : ({ rate := 1 / 40000, timestamp := 1440003600000 } : FundingPoint) ∈
      aggregate_to_hourly paradexExampleRaw := by
    rw [(c8_paradex_hourly paradexExampleRaw).2.2.2]
    exact List.mem_singleton_self _
  exact ⟨hmem, (c8_paradex_hourly paradexExampleRaw).2.2.1 _ hmem⟩

end FundingTracker
